import Mathlib

/-!
Shallow embedding of the webca session store (package webca, file
src/unnamed/part_000).

Go reference semantics are made explicit: a Go `session` value is a
reference to a mutable map, so the model carries a heap mapping addresses
(natural numbers) to record contents; the package-level `sessions` map,
which starts out nil, is an `Option` association list from session id to
the address of the stored record.  A Go runtime panic (assignment to a nil
map, a failed type assertion) is modelled as `none`.  Durations and times
are integers counting nanoseconds, matching Go's `time.Duration` and
`time.Time` arithmetic.  The external collaborators (net/http cookies,
crypto/rand) are modelled as explicit inputs, following their documented
behaviour.
-/

namespace Webca

/-- Constant `SESSIONID = "goSessionId"` (line 13). -/
def SESSIONID : String := "goSessionId"

/-- Constant `LASTUSED = "goLastUsed"` (line 14). -/
def LASTUSED : String := "goLastUsed"

/-- `CLEANUPDELAY = time.Minute`, in nanoseconds (line 15). -/
def CLEANUPDELAY : Int := 60 * 1000000000

/-- `MAXSESSIONAGE = 30 * time.Minute`, in nanoseconds (line 16). -/
def MAXSESSIONAGE : Int := 30 * 60 * 1000000000

/-- Values stored in a session map (`interface{}` payloads): the strings and
`time.Time` values the session code itself stores, plus opaque caller
payloads. -/
inductive Val where
  | str (s : String)
  | time (t : Int)
  | other (n : Nat)
deriving DecidableEq

/-- Contents of one Go `session` map (`type session map[string]interface{}`,
line 20), as an association list; `lookupK` and `setK` below give it Go map
semantics. -/
abbrev Session := List (String × Val)

/-- Go map read `s[k]` (missing key reads as nil, i.e. `none`). -/
def lookupK (k : String) (s : Session) : Option Val :=
  (s.find? (fun p => p.1 == k)).map (fun p => p.2)

/-- Go map write `s[k] = v`. -/
def setK (k : String) (v : Val) (s : Session) : Session :=
  (s.filter (fun p => p.1 != k)) ++ [(k, v)]

/-- The mutable store: `heap` maps addresses of allocated `session` maps to
their contents, `next` is the next fresh address, and `sessions` models the
package-level `var sessions map[string]session` (line 23): `none` is the nil
map, `some m` maps each session id to the address of its record. -/
structure St where
  heap : List (Nat × Session)
  next : Nat
  sessions : Option (List (String × Nat))
deriving DecidableEq

/-- Read the record contents at address `a`. -/
def heapGet (h : List (Nat × Session)) (a : Nat) : Option Session :=
  (h.find? (fun p => p.1 == a)).map (fun p => p.2)

/-- Overwrite the record contents at address `a` (in-place map mutation). -/
def heapSet (a : Nat) (s : Session) (h : List (Nat × Session)) :
    List (Nat × Session) :=
  h.map (fun p => if p.1 == a then (a, s) else p)

/-- Go map read `sessions[id]`. -/
def lookupS (id : String) (m : List (String × Nat)) : Option Nat :=
  (m.find? (fun p => p.1 == id)).map (fun p => p.2)

/-- Go map write `sessions[id] = a`. -/
def insertS (id : String) (a : Nat) (m : List (String × Nat)) :
    List (String × Nat) :=
  (m.filter (fun p => p.1 != id)) ++ [(id, a)]

/-- `func (s session) Id() string` (lines 102-107): returns the value under
`SESSIONID` if present, `""` if the key is absent; the type assertion
`.(string)` panics (`none`) if the key holds a non-string value. -/
def sessionIdOf (s : Session) : Option String :=
  match lookupK SESSIONID s with
  | some (Val.str v) => some v
  | some _ => none
  | none => some ""

/-- `func (s session) Save()` (lines 110-114): `sessions[s.Id()] = s.clone()`.
Returns `none` on panic: assignment to the nil `sessions` map, or a
non-string value under `SESSIONID` inside `Id()`.  Storing `s` itself at a
fresh address models `s.clone()`: a new map with the same contents. -/
def Session.Save (s : Session) (st : St) : Option St :=
  match st.sessions with
  | none => none
  | some m =>
    match sessionIdOf s with
    | none => none
    | some id =>
      some ⟨(st.next, s) :: st.heap, st.next + 1, some (insertS id st.next m)⟩

/-- The registry part of `SessionFor` (lines 73-85), once the session id is
known: lazily initialise `sessions`, look up the record (creating it with its
`SESSIONID` key if absent), set its `LASTUSED` key to `now` through the
stored reference, and return the address of a fresh clone. -/
def sessionForId (id : String) (now : Int) (st : St) : Nat × St :=
  let m := st.sessions.getD []
  match lookupS id m with
  | some a =>
    let rc := (heapGet st.heap a).getD []
    let rc2 := setK LASTUSED (Val.time now) rc
    (st.next, ⟨(st.next, rc2) :: heapSet a rc2 st.heap, st.next + 1, some m⟩)
  | none =>
    let rc2 := setK LASTUSED (Val.time now) [(SESSIONID, Val.str id)]
    (st.next + 1, ⟨(st.next + 1, rc2) :: (st.next, rc2) :: st.heap,
      st.next + 2, some (insertS id st.next m)⟩)

/-- `func (s session) expired() bool` (lines 125-128):
`now.Sub(s[LASTUSED].(time.Time)) >= MAXSESSIONAGE`; the type assertion
panics (`none`) if `LASTUSED` is absent or does not hold a time. -/
def Session.expired (s : Session) (now : Int) : Option Bool :=
  match lookupK LASTUSED s with
  | some (Val.time t) => some (decide (now - t ≥ MAXSESSIONAGE))
  | _ => none

/-- The loop body of `cleanupSessions` (lines 41-46) over the id→address
entries: drop each entry whose record is expired; `none` if some record's
expiration check panics. -/
def sweep (now : Int) (h : List (Nat × Session)) :
    List (String × Nat) → Option (List (String × Nat))
  | [] => some []
  | p :: rest =>
    match Session.expired ((heapGet h p.2).getD []) now with
    | none => none
    | some true => sweep now h rest
    | some false => (sweep now h rest).map (fun r => p :: r)

/-- `func cleanupSessions()` (lines 37-47): ranging over a nil map does
nothing; otherwise delete every expired entry (heap cells are not reclaimed,
matching Go, where only the map entry is deleted). -/
def cleanupSessions (now : Int) (st : St) : Option St :=
  match st.sessions with
  | none => some st
  | some m => (sweep now st.heap m).map (fun m2 => ⟨st.heap, st.next, some m2⟩)

/-- An HTTP cookie, with the fields the session code uses. -/
structure Cookie where
  name : String
  value : String
  path : String
  maxAge : Int
deriving DecidableEq

/-- Errors from reading a cookie: the `http.ErrNoCookie` sentinel, or any
other (e.g. malformed header) error. -/
inductive CookieErr where
  | noCookie
  | other (msg : String)
deriving DecidableEq

/-- An inbound request, reduced to what the session code consumes: its cookie
jar, plus an optional forced read error standing for a request whose cookie
reading fails with something other than the not-present sentinel. -/
structure Request where
  badHeader : Option String
  cookies : List Cookie
deriving DecidableEq

/-- An outbound response, reduced to the cookies set on it. -/
structure Response where
  setCookies : List Cookie
deriving DecidableEq

/-- `r.Cookie(n)`: the first cookie named `n`, `ErrNoCookie` if there is
none, or the request's forced error. -/
def getCookie (r : Request) (n : String) : Except CookieErr Cookie :=
  match r.badHeader with
  | some m => Except.error (CookieErr.other m)
  | none =>
    match r.cookies.find? (fun c => c.name == n) with
    | some c => Except.ok c
    | none => Except.error CookieErr.noCookie

/-- `r.AddCookie(c)`: appends to the request's Cookie header. -/
def addCookie (c : Cookie) (r : Request) : Request :=
  { r with cookies := r.cookies ++ [c] }

/-- `http.SetCookie(w, c)`: appends a Set-Cookie header to the response. -/
def setCookie (c : Cookie) (w : Response) : Response :=
  { w with setCookies := w.setCookies ++ [c] }

/-- The outcome of one `rand.Read(uuid)` call on a 16-byte buffer: the bytes
now in the buffer, the reported count `n`, and the reported error. -/
structure RandRead where
  bytes : List Nat
  n : Nat
  err : Option String
deriving DecidableEq

/-- One lowercase hexadecimal digit (0-9 then a-f). -/
def hexDigit (n : Nat) : Char :=
  if n < 10 then Char.ofNat (48 + n) else Char.ofNat (87 + n)

/-- `hex.EncodeToString` character stream: two digits per byte, high nibble
first. -/
def hexEncodeBytes : List Nat → List Char
  | [] => []
  | b :: bs => hexDigit (b / 16) :: hexDigit (b % 16) :: hexEncodeBytes bs

/-- `hex.EncodeToString`. -/
def hexEncode (bs : List Nat) : String :=
  ⟨hexEncodeBytes bs⟩

/-- Value of one lowercase hexadecimal digit character, if it is one. -/
def hexDigitVal (c : Char) : Option Nat :=
  if 48 ≤ c.toNat ∧ c.toNat ≤ 57 then some (c.toNat - 48)
  else if 97 ≤ c.toNat ∧ c.toNat ≤ 102 then some (c.toNat - 87)
  else none

/-- Decode a lowercase hexadecimal character stream back to bytes. -/
def hexDecodeChars : List Char → Option (List Nat)
  | [] => some []
  | [_] => none
  | c1 :: c2 :: cs =>
    match hexDigitVal c1, hexDigitVal c2, hexDecodeChars cs with
    | some hi, some lo, some rest => some ((hi * 16 + lo) :: rest)
    | _, _, _ => none

/-- Decode a lowercase hexadecimal string back to bytes. -/
def hexDecode (s : String) : Option (List Nat) :=
  hexDecodeChars s.data

/-- `func genId() (string, error)` (lines 131-141), Go-style result pair
(value, error).  The buffer is realised as the first 16 of the read bytes
(reduced mod 256, as Go bytes are 8-bit), zero-padded as `make([]byte, 16)`
leaves it; then `uuid[8] = 0x80` and `uuid[4] = 0x40` overwrite those two
whole bytes, and the buffer is hex-encoded. -/
def genId (r : RandRead) : String × Option String :=
  if r.n ≠ 16 ∨ r.err ≠ none then ("", r.err)
  else
    let buf := ((r.bytes.map (fun b => b % 256)) ++ List.replicate 16 0).take 16
    (hexEncode ((buf.set 8 128).set 4 64), none)

/-- `func requestSessionId(w, r)` (lines 50-65): returns the session cookie's
value, creating the cookie (path "/", MaxAge 0), setting it on the response
and adding it to the request when absent; returns the (possibly nil) genId
error or any non-sentinel cookie-read error. -/
def requestSessionId (w : Response) (r : Request) (rand : RandRead) :
    (String × Option String) × Response × Request :=
  match getCookie r SESSIONID with
  | Except.error (CookieErr.other m) => (("", some m), w, r)
  | Except.error CookieErr.noCookie =>
    match genId rand with
    | (_, some m) => (("", some m), w, r)
    | (id, none) =>
      let c : Cookie := ⟨SESSIONID, id, "/", 0⟩
      ((id, none), setCookie c w, addCookie c r)
  | Except.ok c => ((c.value, none), w, r)

/-- `func SessionFor(w, r)` (lines 68-86): resolve the session id from the
cookies, then get-or-create the record and return (a reference to) its
clone. -/
def SessionFor (w : Response) (r : Request) (rand : RandRead) (now : Int)
    (st : St) : (Option Nat × Option String) × Response × Request × St :=
  match requestSessionId w r rand with
  | ((_, some e), w2, r2) => ((none, some e), w2, r2, st)
  | ((id, none), w2, r2) =>
    let p := sessionForId id now st
    ((some p.1, none), w2, r2, p.2)

/-- `func RemoveSession(w, r)` (lines 89-99): on any cookie-read error do
nothing; otherwise delete the registry entry for the cookie's value (a no-op
on the nil map, as `delete` is in Go) and re-issue the cookie with MaxAge
0. -/
def RemoveSession (w : Response) (r : Request) (st : St) : Response × St :=
  match getCookie r SESSIONID with
  | Except.error _ => (w, st)
  | Except.ok c =>
    let st2 : St :=
      { st with sessions := st.sessions.map (fun m => m.filter (fun p => p.1 != c.value)) }
    ({ w with setCookies := w.setCookies ++ [⟨c.name, c.value, c.path, 0⟩] }, st2)

/-- Well-formedness of a store: every registry entry points at an allocated
record, and every address in use is below `next`.  Holds of the initial
state and is preserved by the operations. -/
def WF (st : St) : Prop :=
  (∀ p ∈ st.sessions.getD [], (heapGet st.heap p.2).isSome = true ∧ p.2 < st.next) ∧
  (∀ q ∈ st.heap, q.1 < st.next)

instance (st : St) : Decidable (WF st) := by
  unfold WF; infer_instance

/-- Contents of the record returned by a `sessionForId` call. -/
def retOf (p : Nat × St) : Option Session :=
  heapGet p.2.heap p.1

/-- Caller-side mutation `s[k] = v` on the session reference `a` returned by
a lookup. -/
def setVal (a : Nat) (k : String) (v : Val) (st : St) : St :=
  { st with heap := heapSet a (setK k v ((heapGet st.heap a).getD [])) st.heap }

/-- The `LASTUSED` value of the record the registry stores for `id`. -/
def storedLU (id : String) (st : St) : Option Val :=
  (lookupS id (st.sessions.getD [])).bind
    (fun a => (heapGet st.heap a).bind (fun rc => lookupK LASTUSED rc))

/-! ### Association-list and heap lemmas -/

theorem find?_pair_cons {α β : Type} [DecidableEq α] [BEq α] [LawfulBEq α]
    (hd : α × β) (tl : List (α × β)) (k : α) :
    ((hd :: tl).find? (fun p => p.1 == k)) =
      if hd.1 = k then some hd else tl.find? (fun p => p.1 == k) := by
  by_cases h : hd.1 = k
  · simp [List.find?_cons, h]
  · simp [List.find?_cons, beq_eq_false_iff_ne.mpr h, h]

theorem find?_key_filter_self {α β : Type} [DecidableEq α] [BEq α] [LawfulBEq α]
    (l : List (α × β)) (k : α) :
    (l.filter (fun p => p.1 != k)).find? (fun p => p.1 == k) = none := by
  rw [List.find?_eq_none]
  intro x hx
  simp only [List.mem_filter, bne_iff_ne] at hx
  simp [hx.2]

theorem find?_key_filter_ne {α β : Type} [DecidableEq α] [BEq α] [LawfulBEq α]
    (l : List (α × β)) (k2 k : α) (h : k2 ≠ k) :
    (l.filter (fun p => p.1 != k)).find? (fun p => p.1 == k2) =
      l.find? (fun p => p.1 == k2) := by
  induction l with
  | nil => rfl
  | cons hd tl ih =>
    rw [List.filter_cons]
    by_cases hh : hd.1 = k
    · have h2 : ¬ hd.1 = k2 := by rw [hh]; exact Ne.symm h
      rw [if_neg (by simp [hh]), ih, find?_pair_cons, if_neg h2]
    · rw [if_pos (by simp [hh]), find?_pair_cons, find?_pair_cons]
      by_cases h2 : hd.1 = k2
      · rw [if_pos h2, if_pos h2]
      · rw [if_neg h2, if_neg h2, ih]

theorem lookupK_setK_self (k : String) (v : Val) (s : Session) :
    lookupK k (setK k v s) = some v := by
  unfold lookupK setK
  rw [List.find?_append, find?_key_filter_self]
  simp

theorem lookupK_setK_ne (k2 k : String) (v : Val) (s : Session) (h : k2 ≠ k) :
    lookupK k2 (setK k v s) = lookupK k2 s := by
  unfold lookupK setK
  rw [List.find?_append, find?_key_filter_ne s k2 k h]
  cases hf : s.find? (fun p => p.1 == k2) with
  | none => simp [find?_pair_cons, Ne.symm h]
  | some p => simp

theorem lookupS_insertS_self (id : String) (a : Nat) (m : List (String × Nat)) :
    lookupS id (insertS id a m) = some a := by
  unfold lookupS insertS
  rw [List.find?_append, find?_key_filter_self]
  simp

theorem lookupS_mem (id : String) (m : List (String × Nat)) (a : Nat)
    (h : lookupS id m = some a) : (id, a) ∈ m := by
  unfold lookupS at h
  cases hf : m.find? (fun p => p.1 == id) with
  | none => rw [hf] at h; exact absurd h (by simp)
  | some p =>
    rw [hf] at h
    have hp : p.1 = id := by simpa using List.find?_some hf
    have hm : p ∈ m := List.mem_of_find?_eq_some hf
    have ha : p.2 = a := by simpa using h
    have hpa : p = (id, a) := by cases p; simp_all
    rw [hpa] at hm; exact hm

theorem mem_insertS (p : String × Nat) (id : String) (a : Nat)
    (m : List (String × Nat)) (h : p ∈ insertS id a m) :
    p ∈ m ∨ p = (id, a) := by
  unfold insertS at h
  rcases List.mem_append.mp h with h1 | h1
  · exact Or.inl (List.mem_filter.mp h1).1
  · simp at h1; exact Or.inr h1

theorem heapGet_cons (a b : Nat) (s : Session) (h : List (Nat × Session)) :
    heapGet ((a, s) :: h) b = if a = b then some s else heapGet h b := by
  by_cases hab : a = b
  · subst hab; simp [heapGet, find?_pair_cons]
  · simp [heapGet, find?_pair_cons, hab]

theorem heapSet_cons (a : Nat) (x : Session) (hd : Nat × Session)
    (tl : List (Nat × Session)) :
    heapSet a x (hd :: tl) =
      (if hd.1 = a then (a, x) else hd) :: heapSet a x tl := by
  unfold heapSet
  rw [List.map_cons]
  by_cases h : hd.1 = a
  · rw [if_pos (by simp [h]), if_pos h]
  · rw [if_neg (by simp [h]), if_neg h]

theorem heapGet_heapSet_ne (h : List (Nat × Session)) (a b : Nat) (x : Session)
    (hne : b ≠ a) : heapGet (heapSet a x h) b = heapGet h b := by
  induction h with
  | nil => rfl
  | cons hd tl ih =>
    rcases hd with ⟨c, s⟩
    rw [heapSet_cons]
    by_cases hh : c = a
    · rw [if_pos (by simpa using hh), heapGet_cons, if_neg (Ne.symm hne), ih,
        heapGet_cons, if_neg (by rw [hh]; exact Ne.symm hne)]
    · rw [if_neg (by simpa using hh), heapGet_cons, heapGet_cons, ih]

theorem heapGet_heapSet_self (h : List (Nat × Session)) (a : Nat) (x : Session)
    (hs : (heapGet h a).isSome = true) :
    heapGet (heapSet a x h) a = some x := by
  induction h with
  | nil => simp [heapGet] at hs
  | cons hd tl ih =>
    rcases hd with ⟨c, s⟩
    rw [heapSet_cons]
    by_cases hh : c = a
    · rw [if_pos (by simpa using hh), heapGet_cons, if_pos rfl]
    · rw [if_neg (by simpa using hh), heapGet_cons, if_neg hh]
      rw [heapGet_cons, if_neg hh] at hs
      exact ih hs

theorem heapGet_heapSet_none (h : List (Nat × Session)) (a : Nat) (x : Session)
    (hs : heapGet h a = none) : heapGet (heapSet a x h) a = none := by
  induction h with
  | nil => rfl
  | cons hd tl ih =>
    rcases hd with ⟨c, s⟩
    rw [heapGet_cons] at hs
    by_cases hc : c = a
    · rw [if_pos hc] at hs; exact absurd hs (by simp)
    · rw [if_neg hc] at hs
      rw [heapSet_cons, if_neg hc, heapGet_cons, if_neg hc]
      exact ih hs

theorem heapGet_heapSet_isSome (h : List (Nat × Session)) (a b : Nat)
    (x : Session) :
    (heapGet (heapSet a x h) b).isSome = (heapGet h b).isSome := by
  by_cases hb : b = a
  · subst hb
    cases hs : heapGet h b with
    | none => rw [heapGet_heapSet_none h b x hs]
    | some rc => rw [heapGet_heapSet_self h b x (by rw [hs]; rfl)]; rfl
  · rw [heapGet_heapSet_ne h a b x hb]


/-! ### Hexadecimal encoding lemmas -/

theorem hexDigitVal_hexDigit (d : Nat) (h : d < 16) :
    hexDigitVal (hexDigit d) = some d := by
  interval_cases d <;> decide

theorem hexDecodeChars_hexEncodeBytes (bs : List Nat)
    (h : ∀ b ∈ bs, b < 256) :
    hexDecodeChars (hexEncodeBytes bs) = some bs := by
  induction bs with
  | nil => rfl
  | cons b tl ih =>
    have hb : b < 256 := h b (List.mem_cons_self b tl)
    have hhi : b / 16 < 16 := by omega
    have hlo : b % 16 < 16 := by omega
    have htl : hexDecodeChars (hexEncodeBytes tl) = some tl :=
      ih (fun x hx => h x (List.mem_cons_of_mem b hx))
    simp only [hexEncodeBytes, hexDecodeChars, hexDigitVal_hexDigit _ hhi,
      hexDigitVal_hexDigit _ hlo, htl]
    have : b / 16 * 16 + b % 16 = b := by omega
    rw [this]

theorem hexEncodeBytes_length (bs : List Nat) :
    (hexEncodeBytes bs).length = 2 * bs.length := by
  induction bs with
  | nil => rfl
  | cons b tl ih => simp only [hexEncodeBytes, List.length_cons, ih]; omega

theorem mem_hexEncodeBytes_isHex (bs : List Nat) (h : ∀ b ∈ bs, b < 256) :
    ∀ c ∈ hexEncodeBytes bs, (hexDigitVal c).isSome = true := by
  induction bs with
  | nil => intro c hc; exact absurd hc (by simp [hexEncodeBytes])
  | cons b tl ih =>
    intro c hc
    have hb : b < 256 := h b (List.mem_cons_self b tl)
    simp only [hexEncodeBytes, List.mem_cons] at hc
    rcases hc with hc | hc | hc
    · rw [hc, hexDigitVal_hexDigit _ (by omega)]; rfl
    · rw [hc, hexDigitVal_hexDigit _ (by omega)]; rfl
    · exact ih (fun x hx => h x (List.mem_cons_of_mem b hx)) c hc

theorem hexDecode_hexEncode (bs : List Nat) (h : ∀ b ∈ bs, b < 256) :
    hexDecode (hexEncode bs) = some bs :=
  hexDecodeChars_hexEncodeBytes bs h

theorem hexEncode_length (bs : List Nat) :
    (hexEncode bs).length = 2 * bs.length :=
  hexEncodeBytes_length bs

/-! ### genId structure -/

/-- The byte buffer genId encodes on a successful 16-byte read: the random
bytes with byte 8 overwritten by `0x80` and byte 4 overwritten by `0x40`. -/
def uuidBytes (r : RandRead) : List Nat :=
  ((((r.bytes.map (fun b => b % 256)) ++ List.replicate 16 0).take 16).set
    8 128).set 4 64

theorem genId_ok (r : RandRead) (hn : r.n = 16) (he : r.err = none) :
    genId r = (hexEncode (uuidBytes r), none) := by
  rw [genId, if_neg (by simp [hn, he])]
  rfl

theorem uuidBytes_length (r : RandRead) : (uuidBytes r).length = 16 := by
  simp [uuidBytes]

theorem uuidBytes_lt (r : RandRead) : ∀ b ∈ uuidBytes r, b < 256 := by
  intro b hb
  unfold uuidBytes at hb
  rcases List.mem_or_eq_of_mem_set hb with hb | hb
  · rcases List.mem_or_eq_of_mem_set hb with hb | hb
    · have hb2 := List.mem_of_mem_take hb
      rcases List.mem_append.mp hb2 with hb3 | hb3
      · rcases List.mem_map.mp hb3 with ⟨x, _, hx⟩
        omega
      · have := List.eq_of_mem_replicate hb3
        omega
    · omega
  · omega

theorem uuidBytes_byte4 (r : RandRead) : (uuidBytes r).getD 4 0 = 64 := by
  have h8 : 4 < ((((r.bytes.map (fun b => b % 256)) ++ List.replicate 16 0).take
      16).set 8 128).length := by simp
  unfold uuidBytes
  rw [List.getD_eq_getElem?_getD, List.getElem?_set_self h8]
  rfl

theorem uuidBytes_byte8 (r : RandRead) : (uuidBytes r).getD 8 0 = 128 := by
  have h0 : 8 < (((r.bytes.map (fun b => b % 256)) ++ List.replicate 16 0).take
      16).length := by simp
  have hne : (4 : Nat) ≠ 8 := by omega
  unfold uuidBytes
  rw [List.getD_eq_getElem?_getD, List.getElem?_set_ne hne,
    List.getElem?_set_self h0]
  rfl

/-! ### sessionForId characterisation and store well-formedness -/

theorem sessionForId_found (st : St) (id : String) (now : Int) (a : Nat)
    (hl : lookupS id (st.sessions.getD []) = some a) :
    sessionForId id now st =
      (st.next,
        ⟨(st.next, setK LASTUSED (Val.time now) ((heapGet st.heap a).getD [])) ::
            heapSet a (setK LASTUSED (Val.time now) ((heapGet st.heap a).getD []))
              st.heap,
          st.next + 1, some (st.sessions.getD [])⟩) := by
  simp only [sessionForId, hl]

theorem sessionForId_new (st : St) (id : String) (now : Int)
    (hl : lookupS id (st.sessions.getD []) = none) :
    sessionForId id now st =
      (st.next + 1,
        ⟨(st.next + 1, setK LASTUSED (Val.time now) [(SESSIONID, Val.str id)]) ::
            (st.next, setK LASTUSED (Val.time now) [(SESSIONID, Val.str id)]) ::
              st.heap,
          st.next + 2, some (insertS id st.next (st.sessions.getD []))⟩) := by
  simp only [sessionForId, hl]

theorem heapSet_addr (q : Nat × Session) (a : Nat) (x : Session)
    (h : List (Nat × Session)) (hq : q ∈ heapSet a x h) :
    ∃ q0 ∈ h, q.1 = q0.1 := by
  unfold heapSet at hq
  rcases List.mem_map.mp hq with ⟨q0, hq0, hf⟩
  refine ⟨q0, hq0, ?_⟩
  by_cases hc : q0.1 = a
  · rw [← hf, if_pos (by simp [hc])]; simp [hc]
  · rw [← hf, if_neg (by simp [hc])]

theorem sessionForId_fresh (st : St) (id : String) (now : Int) (hwf : WF st) :
    ∀ p ∈ (sessionForId id now st).2.sessions.getD [],
      p.2 ≠ (sessionForId id now st).1 := by
  intro p hp
  cases hl : lookupS id (st.sessions.getD []) with
  | some a =>
    rw [sessionForId_found st id now a hl] at hp ⊢
    dsimp only at hp ⊢
    simp only [Option.getD_some] at hp
    have := (hwf.1 p hp).2
    omega
  | none =>
    rw [sessionForId_new st id now hl] at hp ⊢
    dsimp only at hp ⊢
    simp only [Option.getD_some] at hp
    rcases mem_insertS p id st.next _ hp with hm | he
    · have := (hwf.1 p hm).2
      omega
    · rw [he]
      dsimp only
      omega

theorem WF_sessionForId (st : St) (id : String) (now : Int) (hwf : WF st) :
    WF (sessionForId id now st).2 := by
  cases hl : lookupS id (st.sessions.getD []) with
  | some a =>
    rw [sessionForId_found st id now a hl]
    constructor
    · intro p hp
      dsimp only at hp ⊢
      simp only [Option.getD_some] at hp
      have hp2 := hwf.1 p hp
      constructor
      · rw [heapGet_cons]
        by_cases hc : st.next = p.2
        · rw [if_pos hc]; rfl
        · rw [if_neg hc, heapGet_heapSet_isSome]
          exact hp2.1
      · have := hp2.2; omega
    · intro q hq
      dsimp only at hq ⊢
      rcases List.mem_cons.mp hq with hq | hq
      · rw [hq]; dsimp only; omega
      · rcases heapSet_addr q a _ _ hq with ⟨q0, hq0, he⟩
        have := hwf.2 q0 hq0
        omega
  | none =>
    rw [sessionForId_new st id now hl]
    constructor
    · intro p hp
      dsimp only at hp ⊢
      simp only [Option.getD_some] at hp
      rcases mem_insertS p id st.next _ hp with hm | he
      · have hp2 := hwf.1 p hm
        have hlt := hp2.2
        constructor
        · rw [heapGet_cons, if_neg (by omega), heapGet_cons,
            if_neg (by omega)]
          exact hp2.1
        · omega
      · rw [he]
        dsimp only
        constructor
        · rw [heapGet_cons, if_neg (by omega), heapGet_cons, if_pos rfl]
          rfl
        · omega
    · intro q hq
      dsimp only at hq ⊢
      rcases List.mem_cons.mp hq with hq | hq
      · rw [hq]; dsimp only; omega
      · rcases List.mem_cons.mp hq with hq | hq
        · rw [hq]; dsimp only; omega
        · have := hwf.2 q hq
          omega

theorem WF_setVal (st : St) (a : Nat) (k : String) (v : Val) (hwf : WF st) :
    WF (setVal a k v st) := by
  constructor
  · intro p hp
    simp only [setVal] at hp ⊢
    have hp2 := hwf.1 p hp
    exact ⟨by rw [heapGet_heapSet_isSome]; exact hp2.1, hp2.2⟩
  · intro q hq
    simp only [setVal] at hq ⊢
    rcases heapSet_addr q a _ _ hq with ⟨q0, hq0, he⟩
    have := hwf.2 q0 hq0
    omega

theorem sessionForId_storedLU (st : St) (id : String) (now : Int)
    (hwf : WF st) :
    storedLU id (sessionForId id now st).2 = some (Val.time now) := by
  cases hl : lookupS id (st.sessions.getD []) with
  | some a =>
    rw [sessionForId_found st id now a hl]
    have ha := hwf.1 _ (lookupS_mem id _ a hl)
    unfold storedLU
    dsimp only
    simp only [Option.getD_some, hl, Option.some_bind]
    rw [heapGet_cons, if_neg (by have := ha.2; dsimp only at this; omega),
      heapGet_heapSet_self _ _ _ ha.1]
    simp only [Option.some_bind]
    exact lookupK_setK_self _ _ _
  | none =>
    rw [sessionForId_new st id now hl]
    unfold storedLU
    dsimp only
    simp only [Option.getD_some, lookupS_insertS_self, Option.some_bind]
    rw [heapGet_cons, if_neg (by omega), heapGet_cons, if_pos rfl]
    simp only [Option.some_bind]
    exact lookupK_setK_self _ _ _

/-! ### Sweep membership -/

theorem sweep_mem_iff (now : Int) (h : List (Nat × Session))
    (l l2 : List (String × Nat)) (hs : sweep now h l = some l2)
    (p : String × Nat) :
    p ∈ l2 ↔ p ∈ l ∧
      Session.expired ((heapGet h p.2).getD []) now = some false := by
  induction l generalizing l2 with
  | nil =>
    simp only [sweep, Option.some.injEq] at hs
    subst hs
    simp
  | cons q rest ih =>
    cases he : Session.expired ((heapGet h q.2).getD []) now with
    | none => simp [sweep, he] at hs
    | some b =>
      cases b with
      | true =>
        simp only [sweep, he] at hs
        rw [ih l2 hs]
        constructor
        · rintro ⟨hmem, hcond⟩
          exact ⟨List.mem_cons_of_mem q hmem, hcond⟩
        · rintro ⟨hmem, hcond⟩
          rcases List.mem_cons.mp hmem with hpq | hmem2
          · subst hpq
            exact absurd (he.symm.trans hcond) (by simp)
          · exact ⟨hmem2, hcond⟩
      | false =>
        simp only [sweep, he] at hs
        cases hr : sweep now h rest with
        | none => rw [hr] at hs; simp at hs
        | some r2 =>
          rw [hr] at hs
          simp only [Option.map_some', Option.some.injEq] at hs
          subst hs
          rw [List.mem_cons, ih r2 hr, List.mem_cons]
          constructor
          · rintro (hpq | ⟨hmem, hcond⟩)
            · subst hpq
              exact ⟨Or.inl rfl, he⟩
            · exact ⟨Or.inr hmem, hcond⟩
          · rintro ⟨hpq | hmem, hcond⟩
            · exact Or.inl hpq
            · exact Or.inr ⟨hmem, hcond⟩

/-! ### Claim theorems -/

/-- C1, counterexample: the claim says `Save` on a record whose
session-identifier key is absent fails with a caller error and stores
nothing.  On a record with no `SESSIONID` key and an initialised registry,
`Save` in fact succeeds (it has no error channel and does not panic) and
stores the record's clone into the registry under the empty-string key. -/
theorem c1_save_missing_id_counterexample :
    (Session.Save [("pay", Val.other 7)] ⟨[], 0, some []⟩).isSome = true ∧
    ((Session.Save [("pay", Val.other 7)] ⟨[], 0, some []⟩).bind
      (fun st2 => (lookupS "" (st2.sessions.getD [])).bind
        (fun a => heapGet st2.heap a))) = some [("pay", Val.other 7)] :=
  ⟨rfl, rfl⟩

/-- C1, amended: for every record whose session-identifier key is absent
(`Id()` returns `""`), calling `Save` on an initialised registry does not
fail: it stores a clone of the record into the registry under the
empty-string key, at a fresh address. -/
theorem c1_save_missing_id (st : St) (s : Session) (m : List (String × Nat))
    (hm : st.sessions = some m) (hid : lookupK SESSIONID s = none) :
    Session.Save s st =
      some ⟨(st.next, s) :: st.heap, st.next + 1,
        some (insertS "" st.next m)⟩ := by
  unfold Session.Save sessionIdOf
  rw [hm, hid]

/-- C1, witness for the amended claim at a concrete record and store. -/
theorem c1_save_missing_id_witness :
    (⟨[], 0, some []⟩ : St).sessions = some [] ∧
    lookupK SESSIONID [("pay", Val.other 7)] = none ∧
    Session.Save [("pay", Val.other 7)] ⟨[], 0, some []⟩ =
      some ⟨[(0, [("pay", Val.other 7)])], 1, some (insertS "" 0 [])⟩ :=
  ⟨rfl, by decide, c1_save_missing_id ⟨[], 0, some []⟩ [("pay", Val.other 7)]
    [] rfl (by decide)⟩

/-- C3: a completed sweep retains a registry entry whose record carries a
`LASTUSED` time `t` exactly when `now - t < MAXSESSIONAGE`, i.e. it deletes
the entry exactly when `now - t ≥ 30` minutes (so `t = now - 30m - 1s` is
removed and `t = now - 29m` is retained, as the witness instantiates). -/
theorem c3_sweep_expiration (st st2 : St) (m : List (String × Nat))
    (now t : Int) (id : String) (a : Nat)
    (hm : st.sessions = some m)
    (hcl : cleanupSessions now st = some st2)
    (ht : lookupK LASTUSED ((heapGet st.heap a).getD []) =
      some (Val.time t)) :
    (id, a) ∈ st2.sessions.getD [] ↔
      (id, a) ∈ m ∧ now - t < MAXSESSIONAGE := by
  simp only [cleanupSessions, hm] at hcl
  cases hsw : sweep now st.heap m with
  | none => rw [hsw] at hcl; simp at hcl
  | some m2 =>
    rw [hsw] at hcl
    simp only [Option.map_some', Option.some.injEq] at hcl
    subst hcl
    simp only [Option.getD_some]
    rw [sweep_mem_iff now st.heap m m2 hsw (id, a)]
    have hexp : Session.expired ((heapGet st.heap a).getD []) now =
        some (decide (now - t ≥ MAXSESSIONAGE)) := by
      unfold Session.expired
      rw [ht]
    rw [hexp]
    constructor
    · rintro ⟨hmem, hcond⟩
      simp only [Option.some.injEq] at hcond
      have : ¬ (now - t ≥ MAXSESSIONAGE) := by
        intro hge
        rw [decide_eq_true hge] at hcond
        cases hcond
      exact ⟨hmem, by omega⟩
    · rintro ⟨hmem, hlt⟩
      refine ⟨hmem, ?_⟩
      have : (now - t ≥ MAXSESSIONAGE) = False := by
        simp only [eq_iff_iff, iff_false]
        omega
      rw [decide_eq_false (by omega)]

/-- C3, witness: with `now = 0`, the record last used `30m + 1s` ago is
removed by the sweep and the record last used `29m` ago is retained. -/
theorem c3_sweep_expiration_witness :
    (cleanupSessions 0
        ⟨[(0, [(LASTUSED, Val.time (-1801000000000))]),
          (1, [(LASTUSED, Val.time (-1740000000000))])], 2,
          some [("a", 0), ("b", 1)]⟩ =
      some ⟨[(0, [(LASTUSED, Val.time (-1801000000000))]),
          (1, [(LASTUSED, Val.time (-1740000000000))])], 2,
          some [("b", 1)]⟩) ∧
    (("a", 0) ∈ (⟨[(0, [(LASTUSED, Val.time (-1801000000000))]),
          (1, [(LASTUSED, Val.time (-1740000000000))])], 2,
          some [("b", 1)]⟩ : St).sessions.getD [] ↔
      ("a", 0) ∈ [("a", (0 : Nat)), ("b", 1)] ∧
        (0 : Int) - (-1801000000000) < MAXSESSIONAGE) ∧
    (("b", 1) ∈ (⟨[(0, [(LASTUSED, Val.time (-1801000000000))]),
          (1, [(LASTUSED, Val.time (-1740000000000))])], 2,
          some [("b", 1)]⟩ : St).sessions.getD [] ↔
      ("b", 1) ∈ [("a", (0 : Nat)), ("b", 1)] ∧
        (0 : Int) - (-1740000000000) < MAXSESSIONAGE) :=
  ⟨by decide,
    c3_sweep_expiration
      ⟨[(0, [(LASTUSED, Val.time (-1801000000000))]),
        (1, [(LASTUSED, Val.time (-1740000000000))])], 2,
        some [("a", 0), ("b", 1)]⟩
      ⟨[(0, [(LASTUSED, Val.time (-1801000000000))]),
        (1, [(LASTUSED, Val.time (-1740000000000))])], 2, some [("b", 1)]⟩
      [("a", 0), ("b", 1)] 0 (-1801000000000) "a" 0
      rfl (by decide) (by decide),
    c3_sweep_expiration
      ⟨[(0, [(LASTUSED, Val.time (-1801000000000))]),
        (1, [(LASTUSED, Val.time (-1740000000000))])], 2,
        some [("a", 0), ("b", 1)]⟩
      ⟨[(0, [(LASTUSED, Val.time (-1801000000000))]),
        (1, [(LASTUSED, Val.time (-1740000000000))])], 2, some [("b", 1)]⟩
      [("a", 0), ("b", 1)] 0 (-1740000000000) "b" 1
      rfl (by decide) (by decide)⟩

/-- C6: under the documented contract of `crypto/rand.Read` (`n == len(b)`
iff `err == nil`), whenever the read does not yield exactly 16 bytes or
reports an error, `genId` returns the empty string together with a non-nil
error: it never returns a usable identifier and never falls back to a weak
one. -/
theorem c6_genId_failure (r : RandRead) (hc : r.n = 16 ↔ r.err = none)
    (hf : r.n ≠ 16 ∨ r.err ≠ none) :
    (genId r).1 = "" ∧ (genId r).2 ≠ none := by
  have herr : r.err ≠ none := by
    rcases hf with hn | he
    · intro he2
      exact hn (hc.mpr he2)
    · exact he
  have hg : genId r = ("", r.err) := by
    rw [genId, if_pos (Or.inr herr)]
  rw [hg]
  exact ⟨rfl, herr⟩

/-- C6, witness: a short read reported together with an error. -/
theorem c6_genId_failure_witness :
    ((0 : Nat) = 16 ↔ (some "unexpected EOF" : Option String) = none) ∧
    (genId ⟨[], 0, some "unexpected EOF"⟩).1 = "" ∧
    (genId ⟨[], 0, some "unexpected EOF"⟩).2 ≠ none :=
  ⟨by decide,
    c6_genId_failure ⟨[], 0, some "unexpected EOF"⟩ (by decide)
      (Or.inl (by decide))⟩

/-- C9: whenever reading the session cookie yields any error — the
not-present sentinel or any other error — `RemoveSession` returns the
response and the store entirely unchanged: no registry entry is deleted, no
removal cookie is written, and the error is not propagated (the function
has no error result). -/
theorem c9_remove_error_noop (w : Response) (r : Request) (st : St)
    (e : CookieErr) (he : getCookie r SESSIONID = Except.error e) :
    RemoveSession w r st = (w, st) := by
  unfold RemoveSession
  rw [he]

/-- C9, witness: a request whose cookie read fails with a non-sentinel
error, against a non-empty registry: nothing is removed and no cookie is
set. -/
theorem c9_remove_error_noop_witness :
    getCookie ⟨some "malformed header", [⟨SESSIONID, "v", "/", 0⟩]⟩
        SESSIONID = Except.error (CookieErr.other "malformed header") ∧
    RemoveSession ⟨[]⟩ ⟨some "malformed header", [⟨SESSIONID, "v", "/", 0⟩]⟩
        ⟨[(0, [])], 1, some [("v", 0)]⟩ =
      (⟨[]⟩, ⟨[(0, [])], 1, some [("v", 0)]⟩) :=
  ⟨rfl, c9_remove_error_noop _ _ _ (CookieErr.other "malformed header") rfl⟩

/-- C10: if `Save` is called while the package-level `sessions` map is
still nil — which is the state before any `SessionFor` call, since only
`SessionFor` performs the lazy initialisation — the write
`sessions[s.Id()] = s.clone()` is an assignment to a nil map and panics
(modelled as `none`). -/
theorem c10_save_before_init_panics (s : Session) (st : St)
    (hnil : st.sessions = none) : Session.Save s st = none := by
  unfold Session.Save
  rw [hnil]

/-- C10, witness: `Save` on the initial store panics. -/
theorem c10_save_before_init_panics_witness :
    (⟨[], 0, none⟩ : St).sessions = none ∧
    Session.Save [(SESSIONID, Val.str "x")] ⟨[], 0, none⟩ = none :=
  ⟨rfl, c10_save_before_init_panics [(SESSIONID, Val.str "x")] ⟨[], 0, none⟩
    rfl⟩

/-- C2: the record returned by a get-or-create call is an independent copy
of the stored one: mutating it (writing any key through the returned
reference, with no intervening `Save`) leaves the record contents observed
by a subsequent get-or-create call for the same ID unchanged. -/
theorem c2_copy_isolation (st st2 : St) (ca : Nat) (id : String)
    (now1 now2 : Int) (k : String) (v : Val) (hwf : WF st)
    (h1 : sessionForId id now1 st = (ca, st2)) :
    retOf (sessionForId id now2 (setVal ca k v st2)) =
      retOf (sessionForId id now2 st2) := by
  have hfresh := sessionForId_fresh st id now1 hwf
  rw [h1] at hfresh
  cases hl : lookupS id (st2.sessions.getD []) with
  | some a0 =>
    have ha0 : a0 ≠ ca := hfresh (id, a0) (lookupS_mem id _ a0 hl)
    have hl2 : lookupS id ((setVal ca k v st2).sessions.getD []) = some a0 :=
      hl
    rw [sessionForId_found st2 id now2 a0 hl,
      sessionForId_found (setVal ca k v st2) id now2 a0 hl2]
    unfold retOf
    dsimp only
    rw [heapGet_cons, if_pos rfl, heapGet_cons, if_pos rfl]
    simp only [setVal]
    rw [heapGet_heapSet_ne st2.heap ca a0 _ ha0]
  | none =>
    have hl2 : lookupS id ((setVal ca k v st2).sessions.getD []) = none := hl
    rw [sessionForId_new st2 id now2 hl,
      sessionForId_new (setVal ca k v st2) id now2 hl2]
    unfold retOf
    dsimp only
    rw [heapGet_cons, if_pos rfl, heapGet_cons, if_pos rfl]

/-- C2, witness: create a session, mutate the returned copy, and observe
that a second get-or-create returns the same contents as without the
mutation. -/
theorem c2_copy_isolation_witness :
    WF ⟨[], 0, some []⟩ ∧
    sessionForId "a" 1 ⟨[], 0, some []⟩ =
      (1, ⟨[(1, [(SESSIONID, Val.str "a"), (LASTUSED, Val.time 1)]),
            (0, [(SESSIONID, Val.str "a"), (LASTUSED, Val.time 1)])], 2,
          some [("a", 0)]⟩) ∧
    retOf (sessionForId "a" 2 (setVal 1 "x" (Val.other 9)
        ⟨[(1, [(SESSIONID, Val.str "a"), (LASTUSED, Val.time 1)]),
          (0, [(SESSIONID, Val.str "a"), (LASTUSED, Val.time 1)])], 2,
          some [("a", 0)]⟩)) =
      retOf (sessionForId "a" 2
        ⟨[(1, [(SESSIONID, Val.str "a"), (LASTUSED, Val.time 1)]),
          (0, [(SESSIONID, Val.str "a"), (LASTUSED, Val.time 1)])], 2,
          some [("a", 0)]⟩) :=
  ⟨by decide, by decide,
    c2_copy_isolation ⟨[], 0, some []⟩
      ⟨[(1, [(SESSIONID, Val.str "a"), (LASTUSED, Val.time 1)]),
        (0, [(SESSIONID, Val.str "a"), (LASTUSED, Val.time 1)])], 2,
        some [("a", 0)]⟩
      1 "a" 1 2 "x" (Val.other 9) (by decide) (by decide)⟩

/-- C4: on a request with no session cookie and a successful random read,
the cookie-binding step generates an ID, sets it as a response cookie with
path "/", and attaches the same cookie to the in-flight request, so that
running the step again on the resulting request returns that identical ID
(for any state of the random source) instead of generating a new one. -/
theorem c4_fresh_cookie (w : Response) (r : Request) (rand rand2 : RandRead)
    (hbad : r.badHeader = none)
    (hno : r.cookies.find? (fun c => c.name == SESSIONID) = none)
    (hn : rand.n = 16) (he : rand.err = none) :
    requestSessionId w r rand =
      (((genId rand).1, none),
        setCookie ⟨SESSIONID, (genId rand).1, "/", 0⟩ w,
        addCookie ⟨SESSIONID, (genId rand).1, "/", 0⟩ r) ∧
    requestSessionId (setCookie ⟨SESSIONID, (genId rand).1, "/", 0⟩ w)
        (addCookie ⟨SESSIONID, (genId rand).1, "/", 0⟩ r) rand2 =
      (((genId rand).1, none),
        setCookie ⟨SESSIONID, (genId rand).1, "/", 0⟩ w,
        addCookie ⟨SESSIONID, (genId rand).1, "/", 0⟩ r) := by
  have hgc : getCookie r SESSIONID = Except.error CookieErr.noCookie := by
    unfold getCookie
    rw [hbad, hno]
  have hg := genId_ok rand hn he
  constructor
  · simp only [requestSessionId, hgc, hg]
  · have hgc2 : getCookie
        (addCookie ⟨SESSIONID, (genId rand).1, "/", 0⟩ r) SESSIONID =
        Except.ok ⟨SESSIONID, (genId rand).1, "/", 0⟩ := by
      simp only [getCookie, addCookie, hbad, List.find?_append, hno,
        Option.none_or]
      simp
    simp only [requestSessionId, hgc2]

/-- C4, witness: an empty request and a successful 16-byte read; the second
query is run with a failing random source and still returns the same ID. -/
theorem c4_fresh_cookie_witness :
    (⟨none, []⟩ : Request).badHeader = none ∧
    (⟨none, []⟩ : Request).cookies.find? (fun c => c.name == SESSIONID) =
      none ∧
    (requestSessionId ⟨[]⟩ ⟨none, []⟩ ⟨List.replicate 16 0, 16, none⟩ =
      (((genId ⟨List.replicate 16 0, 16, none⟩).1, none),
        setCookie ⟨SESSIONID, (genId ⟨List.replicate 16 0, 16, none⟩).1,
          "/", 0⟩ ⟨[]⟩,
        addCookie ⟨SESSIONID, (genId ⟨List.replicate 16 0, 16, none⟩).1,
          "/", 0⟩ ⟨none, []⟩) ∧
    requestSessionId
        (setCookie ⟨SESSIONID, (genId ⟨List.replicate 16 0, 16, none⟩).1,
          "/", 0⟩ ⟨[]⟩)
        (addCookie ⟨SESSIONID, (genId ⟨List.replicate 16 0, 16, none⟩).1,
          "/", 0⟩ ⟨none, []⟩) ⟨[], 0, some "entropy exhausted"⟩ =
      (((genId ⟨List.replicate 16 0, 16, none⟩).1, none),
        setCookie ⟨SESSIONID, (genId ⟨List.replicate 16 0, 16, none⟩).1,
          "/", 0⟩ ⟨[]⟩,
        addCookie ⟨SESSIONID, (genId ⟨List.replicate 16 0, 16, none⟩).1,
          "/", 0⟩ ⟨none, []⟩)) :=
  ⟨rfl, rfl,
    c4_fresh_cookie ⟨[]⟩ ⟨none, []⟩ ⟨List.replicate 16 0, 16, none⟩
      ⟨[], 0, some "entropy exhausted"⟩ rfl rfl rfl rfl⟩

/-- C5, counterexample: the claim says byte 6's high nibble is set to 0x4
and only two bits of byte 8 are overwritten.  On an all-0xFF random read,
the generated ID decodes to a buffer whose byte 6 is 255 (high nibble 15,
not 4) and whose byte 8 is 128 (not 191, which keeping all but the top two
bits of 0xFF would give): the code overwrites bytes 4 and 8 entirely and
leaves byte 6 untouched. -/
theorem c5_genId_counterexample :
    (genId ⟨List.replicate 16 255, 16, none⟩).2 = none ∧
    (hexDecode (genId ⟨List.replicate 16 255, 16, none⟩).1).map
      (fun bs => bs.getD 6 0) = some 255 ∧ (255 : Nat) / 16 ≠ 4 ∧
    (hexDecode (genId ⟨List.replicate 16 255, 16, none⟩).1).map
      (fun bs => bs.getD 8 0) = some 128 ∧ (128 : Nat) ≠ 191 := by
  refine ⟨rfl, by decide, by decide, by decide, by decide⟩

/-- C5, amended: every identifier produced from a successful 16-byte random
read is the 32-character lowercase hexadecimal encoding of the 16 random
bytes in which byte 4 is overwritten entirely with 0x40 and byte 8 entirely
with 0x80 (hence the decoded bytes satisfy the spec's derived facts
`bs[4] = 64` and `bs[8] = 128`). -/
theorem c5_genId_format (r : RandRead) (hn : r.n = 16) (he : r.err = none) :
    (genId r).2 = none ∧
    hexDecode (genId r).1 = some (uuidBytes r) ∧
    (uuidBytes r).length = 16 ∧
    (uuidBytes r).getD 4 0 = 64 ∧
    (uuidBytes r).getD 8 0 = 128 ∧
    (genId r).1.length = 32 ∧
    ∀ ch ∈ (genId r).1.data, (hexDigitVal ch).isSome = true := by
  rw [genId_ok r hn he]
  dsimp only
  refine ⟨rfl, hexDecode_hexEncode _ (uuidBytes_lt r), uuidBytes_length r,
    uuidBytes_byte4 r, uuidBytes_byte8 r, ?_, ?_⟩
  · rw [hexEncode_length, uuidBytes_length]
  · exact mem_hexEncodeBytes_isHex _ (uuidBytes_lt r)

/-- C5, witness for the amended claim at a concrete random read. -/
theorem c5_genId_format_witness :
    (⟨List.replicate 16 171, 16, none⟩ : RandRead).n = 16 ∧
    (⟨List.replicate 16 171, 16, none⟩ : RandRead).err = none ∧
    ((genId ⟨List.replicate 16 171, 16, none⟩).2 = none ∧
    hexDecode (genId ⟨List.replicate 16 171, 16, none⟩).1 =
      some (uuidBytes ⟨List.replicate 16 171, 16, none⟩) ∧
    (uuidBytes ⟨List.replicate 16 171, 16, none⟩).length = 16 ∧
    (uuidBytes ⟨List.replicate 16 171, 16, none⟩).getD 4 0 = 64 ∧
    (uuidBytes ⟨List.replicate 16 171, 16, none⟩).getD 8 0 = 128 ∧
    (genId ⟨List.replicate 16 171, 16, none⟩).1.length = 32 ∧
    ∀ ch ∈ (genId ⟨List.replicate 16 171, 16, none⟩).1.data,
      (hexDigitVal ch).isSome = true) :=
  ⟨rfl, rfl, c5_genId_format ⟨List.replicate 16 171, 16, none⟩ rfl rfl⟩

/-- C7: after `Save` of a record that carries its identifier key, a
subsequent get-or-create for that ID returns a record that agrees with the
saved record on every key except `LASTUSED`, which is refreshed to the
lookup time; in particular keys of the previously stored entry that are not
in the saved record are gone (the entry was replaced, not merged). -/
theorem c7_save_overwrites (st : St) (s : Session) (m : List (String × Nat))
    (id : String) (now : Int)
    (hm : st.sessions = some m)
    (hid : lookupK SESSIONID s = some (Val.str id)) :
    ∃ st1, Session.Save s st = some st1 ∧
      lookupK LASTUSED ((retOf (sessionForId id now st1)).getD []) =
        some (Val.time now) ∧
      ∀ k, k ≠ LASTUSED →
        lookupK k ((retOf (sessionForId id now st1)).getD []) =
          lookupK k s := by
  refine ⟨⟨(st.next, s) :: st.heap, st.next + 1,
    some (insertS id st.next m)⟩, ?_, ?_⟩
  · unfold Session.Save sessionIdOf
    rw [hm, hid]
  · have hl : lookupS id (((⟨(st.next, s) :: st.heap, st.next + 1,
        some (insertS id st.next m)⟩ : St)).sessions.getD []) =
        some st.next := by
      dsimp only
      simp only [Option.getD_some]
      exact lookupS_insertS_self id st.next m
    have hret : retOf (sessionForId id now ⟨(st.next, s) :: st.heap,
        st.next + 1, some (insertS id st.next m)⟩) =
        some (setK LASTUSED (Val.time now) s) := by
      rw [sessionForId_found _ id now st.next hl]
      unfold retOf
      dsimp only
      rw [heapGet_cons, if_pos rfl, heapGet_cons, if_pos rfl]
      rfl
    rw [hret]
    simp only [Option.getD_some]
    exact ⟨lookupK_setK_self LASTUSED (Val.time now) s,
      fun k hk => lookupK_setK_ne k LASTUSED (Val.time now) s hk⟩

/-- C7, witness: save a record with an identifier and a payload key into an
empty registry and look it up again. -/
theorem c7_save_overwrites_witness :
    (⟨[], 0, some []⟩ : St).sessions = some [] ∧
    lookupK SESSIONID [(SESSIONID, Val.str "sid"), ("user", Val.other 3)] =
      some (Val.str "sid") ∧
    ∃ st1, Session.Save [(SESSIONID, Val.str "sid"), ("user", Val.other 3)]
        ⟨[], 0, some []⟩ = some st1 ∧
      lookupK LASTUSED ((retOf (sessionForId "sid" 42 st1)).getD []) =
        some (Val.time 42) ∧
      ∀ k, k ≠ LASTUSED →
        lookupK k ((retOf (sessionForId "sid" 42 st1)).getD []) =
          lookupK k [(SESSIONID, Val.str "sid"), ("user", Val.other 3)] :=
  ⟨rfl, by decide,
    c7_save_overwrites ⟨[], 0, some []⟩
      [(SESSIONID, Val.str "sid"), ("user", Val.other 3)] [] "sid" 42
      rfl (by decide)⟩

/-- C8: a get-or-create call stores `LASTUSED = now` for the looked-up ID
whether the record was just created (first call) or already existed
(second call); with a non-decreasing clock the stored timestamp is
therefore non-decreasing across successive lookups of the same ID. -/
theorem c8_lastused_monotone (st : St) (id : String) (now1 now2 : Int)
    (hwf : WF st) (hmono : now1 ≤ now2) :
    storedLU id (sessionForId id now1 st).2 = some (Val.time now1) ∧
    storedLU id (sessionForId id now2 (sessionForId id now1 st).2).2 =
      some (Val.time now2) ∧
    now1 ≤ now2 :=
  ⟨sessionForId_storedLU st id now1 hwf,
    sessionForId_storedLU _ id now2 (WF_sessionForId st id now1 hwf),
    hmono⟩

/-- C8, witness: two successive lookups of the same ID at times 3 and 5. -/
theorem c8_lastused_monotone_witness :
    WF ⟨[], 0, some []⟩ ∧ (3 : Int) ≤ 5 ∧
    (storedLU "a" (sessionForId "a" 3 ⟨[], 0, some []⟩).2 =
      some (Val.time 3) ∧
    storedLU "a"
        (sessionForId "a" 5 (sessionForId "a" 3 ⟨[], 0, some []⟩).2).2 =
      some (Val.time 5) ∧
    (3 : Int) ≤ 5) :=
  ⟨by decide, by decide,
    c8_lastused_monotone ⟨[], 0, some []⟩ "a" 3 5 (by decide) (by decide)⟩

end Webca
